import Mathlib

/-
Verification of the editing core of the kavi editor (src/buffer.rs and the
event model of src/event.rs) against its natural-language specification.
The Rust code is shallowly embedded: the ropey rope is a `List Char`,
history nodes form an arena indexed by `Nat` (the spec's own suggested
reimplementation of the Rc/Weak graph), and each motion/edit function is
translated arm by arm from the source.
-/

set_option autoImplicit false

namespace Kavi

/-- Direction / position qualifier, from the `DP` enum in src/event.rs
(the variants exercised by the buffer code). -/
inductive DP
  | Left
  | Right
  | Start
  | End
  | LineBound
  | Nobound
  | TextCol
  | StickyCol
  | None
deriving DecidableEq

/-- Sticky-column state, from `enum StickyCol` in src/buffer.rs. -/
inductive StickyCol
  | Home
  | End
  | None
deriving DecidableEq

/-- Buffer mode: the `Inner` enum of src/buffer.rs collapses to this tag,
since `NormalBuffer` and `InsertBuffer` wrap the same head reference. -/
inductive Mode
  | normal
  | insert
deriving DecidableEq

/-- Subset of the `Event` enum of src/event.rs that the Insert-mode
handler distinguishes: the five replayable edit events, Esc, Noop, and a
stand-in for any other event (motions and unrecognized events, which the
replay-validity check of Buffer::repeat rejects alike). -/
inductive IEvent
  | char (ch : Char)
  | backspace
  | enter
  | tab
  | delete
  | esc
  | noop
  | other
deriving DecidableEq

/-- Model of the ropey rope: a sequence of unicode scalar values. -/
abbrev Rope := List Char

/-- Newline character supported by this buffer implementation
(`pub const NL` in src/buffer.rs). -/
def NL : Char := '\n'

/-- Ropey `len_chars`. -/
def lenChars (t : Rope) : Nat := t.length

/-- Ropey line decomposition: each line includes its trailing newline;
text ending in a newline has a final empty line; empty text is one empty
line.  So `ropeLines t` is never empty and concatenates back to `t`. -/
def ropeLines : Rope → List Rope
  | [] => [[]]
  | c :: rest =>
    if c = NL then [NL] :: ropeLines rest
    else
      match ropeLines rest with
      | [] => [[c]]
      | l :: ls => (c :: l) :: ls

/-- Ropey `len_lines`. -/
def nLines (t : Rope) : Nat := (ropeLines t).length

/-- Ropey `line(i).len_chars()` (0 for an out-of-range index). -/
def lenLine (t : Rope) (i : Nat) : Nat := ((ropeLines t).getD i []).length

/-- Ropey `line_to_char`: char offset of the first char of line `i`. -/
def lineToChar (t : Rope) (i : Nat) : Nat :=
  (((ropeLines t).take i).map List.length).sum

/-- Helper for `charToLine`, walking the line list: the final line absorbs
any remaining offset (ropey maps the offset `len_chars` to the last line). -/
def charToLineAux : List Rope → Nat → Nat
  | [], _ => 0
  | [_], _ => 0
  | l :: l2 :: ls, c =>
    if c < l.length then 0 else charToLineAux (l2 :: ls) (c - l.length) + 1

/-- Ropey `char_to_line`. -/
def charToLine (t : Rope) (c : Nat) : Nat := charToLineAux (ropeLines t) c

/-- Cursor as a column/row pair, from `struct Cursor` in src/buffer.rs. -/
structure Cursor where
  col : Nat
  row : Nat
deriving DecidableEq

/-- Embedded buffer state for the motion engine: the rope and char cursor
of the head `Change` plus the replay-relevant per-buffer fields of
`struct Buffer` in src/buffer.rs (history linkage is modelled separately
by the arena below; fields not touched by the verified claims are
omitted). -/
structure Buffer where
  text : Rope
  cursor : Nat
  sticky_col : StickyCol
  insert_repeat : Nat
  last_inserts : List IEvent
  mode : Mode
deriving DecidableEq

/-- Change::to_xy_cursor from src/buffer.rs. -/
def to_xy_cursor (t : Rope) (cursor : Nat) : Cursor :=
  let row_at := charToLine t cursor
  let col_at := cursor - lineToChar t row_at
  ⟨col_at, row_at⟩

/-- Buffer::to_line_home from src/buffer.rs: start-of-line char offset of
the line holding the cursor. -/
def to_line_home (t : Rope) (cursor : Nat) : Nat :=
  lineToChar t (charToLine t cursor)

/-- Modelled from the spec: the `limite!` macro of src/util.rs, which is
not under src/.  Per the spec, indexes stay inside their container
(line index in `[0, line_count)`, `Cursor(n)` clamped to the buffer):
clamp `x` below `lim`. -/
def limite (x lim : Nat) : Nat := if x < lim then x else lim - 1

theorem ropeLines_ne_nil (t : Rope) : ropeLines t ≠ [] := by
  match t with
  | [] => simp [ropeLines]
  | c :: rest =>
    rw [ropeLines]
    by_cases h : c = NL
    · simp [h]
    · simp only [h, if_false]
      cases hr : ropeLines rest <;> simp

theorem nLines_pos (t : Rope) : 0 < nLines t := by
  have h := ropeLines_ne_nil t
  unfold nLines
  cases hr : ropeLines t with
  | nil => exact absurd hr h
  | cons l ls => simp

theorem charToLineAux_lt (ls : List Rope) (c : Nat) (h : ls ≠ []) :
    charToLineAux ls c < ls.length := by
  induction ls generalizing c with
  | nil => exact absurd rfl h
  | cons l rest ih =>
    cases rest with
    | nil => simp [charToLineAux]
    | cons l2 ls2 =>
      rw [charToLineAux]
      by_cases hc : c < l.length
      · simp [hc]
      · simp only [hc, if_false]
        have := ih (c - l.length) (by simp)
        simpa using Nat.succ_lt_succ this

theorem charToLine_lt_nLines (t : Rope) (c : Nat) :
    charToLine t c < nLines t :=
  charToLineAux_lt (ropeLines t) c (ropeLines_ne_nil t)

/-- Change::iter from src/buffer.rs: the character stream produced from the
cursor; `DP::Left` is the reverse iterator (repeated `prev()` calls yield
the chars before the cursor, nearest first), `DP::Right` the forward one
(other qualifiers are `unreachable!` in the source). -/
def iterChars (t : Rope) (cursor : Nat) (dp : DP) : List Char :=
  match dp with
  | DP.Left => (t.take cursor).reverse
  | _ => t.drop cursor

/-- Change::skip_whitespace from src/buffer.rs: count the run of leading
whitespace in the travel direction and move the cursor over it; moving
right is clamped at `len_chars - 1`.  Returns the new cursor and the count
(the source mutates `self.cursor` and returns the count). -/
def skip_whitespace (t : Rope) (cursor : Nat) (dp : DP) : Nat × Nat :=
  let n := ((iterChars t cursor dp).takeWhile (fun ch => ch.isWhitespace)).length
  match dp with
  | DP.Left => (cursor - n, n)
  | _ => (min (cursor + n) (lenChars t - 1), n)

/-- mto_line_home from src/buffer.rs (the `DP::None` arm also covers the
qualifiers that raise `Fatal` in the source; the claims exercise only
`TextCol`, `StickyCol` and `None`). -/
def mto_line_home (b : Buffer) (pos : DP) : Buffer :=
  let b1 : Buffer := { b with cursor := to_line_home b.text b.cursor }
  match pos with
  | DP.TextCol =>
    { b1 with
      cursor := (skip_whitespace b1.text b1.cursor DP.Right).1
      sticky_col := StickyCol.None }
  | DP.StickyCol => { b1 with sticky_col := StickyCol.Home }
  | _ => { b1 with sticky_col := StickyCol.None }

/-- mto_left from src/buffer.rs, `DP::LineBound` arm: move `n` chars left,
clamped at the line home.  The `Nobound` arm walks previous lines through
`text::Format::trim_newline`, a module not present under src/; no verified
claim exercises it, so the embedding keeps the cursor for other
qualifiers.  Every arm resets the sticky column. -/
def mto_left (b : Buffer) (n : Nat) (dp : DP) : Buffer :=
  let cursor := b.cursor
  let home := to_line_home b.text cursor
  let new_cursor := cursor - n
  let cursor1 :=
    match dp with
    | DP.LineBound => if home ≤ new_cursor then new_cursor else home
    | _ => cursor
  { b with cursor := cursor1, sticky_col := StickyCol.None }

/-- mto_cursor from src/buffer.rs: absolute char-offset motion through the
`limite!` clamp. -/
def mto_cursor (b : Buffer) (n : Nat) : Buffer :=
  { b with cursor := limite (b.cursor + n) (lenChars b.text) }

/-- Buffer::set_cursor / Change::set_cursor from src/buffer.rs: the raw
caller-facing mutator; the offset is stored verbatim. -/
def Buffer.set_cursor (b : Buffer) (cursor : Nat) : Buffer :=
  { b with cursor := cursor }

/-- mto_up from src/buffer.rs: `n` lines up; the target column is
`min(len_line(target) - 2, current column)`; on row 0 the motion is a
no-op.  The `pos` qualifiers other than `TextCol`/`None` raise `Fatal`
in the source (after the cursor move); the claims exercise only `None`. -/
def mto_up (b : Buffer) (n : Nat) (pos : DP) : Buffer :=
  match charToLine b.text b.cursor with
  | 0 => b
  | Nat.succ r =>
    let row := Nat.succ r - n
    let cursor :=
      let n_chars := lenLine b.text row - 2
      let col := min n_chars (to_xy_cursor b.text b.cursor).col
      lineToChar b.text row + col
    let b1 := { b with cursor := cursor }
    match pos with
    | DP.TextCol => mto_line_home b1 DP.TextCol
    | _ => b1

/-- mto_down from src/buffer.rs: `n` lines down, target row clamped by
`limite!`; the target column is `min(len_line(target) - 2, current
column)`.  As in the source, the guard arms (`n_lines == 0`,
`row == n_lines`) leave the buffer untouched. -/
def mto_down (b : Buffer) (n : Nat) (pos : DP) : Buffer :=
  let row := charToLine b.text b.cursor
  match nLines b.text with
  | 0 => b
  | Nat.succ k =>
    let n_rows := Nat.succ k
    if row = n_rows then b
    else
      let row1 := limite (row + n) n_rows
      let cursor :=
        let n_chars := lenLine b.text row1 - 2
        let col := min n_chars (to_xy_cursor b.text b.cursor).col
        lineToChar b.text row1 + col
      let b1 := { b with cursor := cursor }
      match pos with
      | DP.TextCol => mto_line_home b1 DP.TextCol
      | _ => b1

theorem charToLineAux_take_sum (ls : List Rope) :
    ∀ (i col : Nat), i < ls.length →
    (col < (ls.getD i []).length ∨ i + 1 = ls.length) →
    charToLineAux ls ((((ls.take i).map List.length).sum) + col) = i := by
  induction ls with
  | nil => intro i col h _; simp at h
  | cons l rest ih =>
    intro i col hi hcol
    cases i with
    | zero =>
      simp only [List.take_zero, List.map_nil, List.sum_nil, Nat.zero_add]
      cases rest with
      | nil => rfl
      | cons l2 ls2 =>
        have hc : col < l.length := by
          rcases hcol with h | h
          · simpa using h
          · simp at h
        rw [charToLineAux, if_pos hc]
    | succ j =>
      cases rest with
      | nil => simp at hi
      | cons l2 ls2 =>
        have hstep : (((l :: l2 :: ls2).take (j + 1)).map List.length).sum
            = l.length + (((l2 :: ls2).take j).map List.length).sum := by
          simp
        rw [hstep, charToLineAux]
        have hge : ¬ (l.length + (((l2 :: ls2).take j).map List.length).sum + col
            < l.length) := by omega
        rw [Nat.add_assoc] at hge
        rw [Nat.add_assoc, if_neg hge, Nat.add_sub_cancel_left]
        have hi' : j < (l2 :: ls2).length := by
          simpa using Nat.lt_of_succ_lt_succ hi
        have hcol' : col < ((l2 :: ls2).getD j []).length ∨ j + 1 = (l2 :: ls2).length := by
          rcases hcol with h | h
          · left; simpa using h
          · right; simpa using h
        rw [ih j col hi' hcol']

theorem ropeLines_nonlast_pos (t : Rope) :
    ∀ i, i + 1 < (ropeLines t).length → 0 < ((ropeLines t).getD i []).length := by
  induction t with
  | nil => intro i h; simp [ropeLines] at h
  | cons c rest ih =>
    intro i h
    rw [ropeLines] at h ⊢
    by_cases hc : c = NL
    · rw [if_pos hc] at h ⊢
      cases i with
      | zero => simp
      | succ j =>
        have hj : j + 1 < (ropeLines rest).length := by simpa using h
        simpa using ih j hj
    · rw [if_neg hc] at h ⊢
      obtain ⟨l, ls, hr⟩ : ∃ l ls, ropeLines rest = l :: ls := by
        cases hx : ropeLines rest with
        | nil => exact absurd hx (ropeLines_ne_nil rest)
        | cons a as => exact ⟨a, as, rfl⟩
      rw [hr] at h ⊢
      cases i with
      | zero => simp
      | succ j =>
        have hj : (j + 1) + 1 < (ropeLines rest).length := by
          rw [hr]; simpa using h
        have hres := ih (j + 1) hj
        rw [hr] at hres
        simpa using hres

theorem lenLine_nonlast_pos (t : Rope) (i : Nat) (h : i + 1 < nLines t) :
    0 < lenLine t i :=
  ropeLines_nonlast_pos t i h

theorem to_xy_cursor_line_col (t : Rope) (i col : Nat) (hi : i < nLines t)
    (hcol : col < lenLine t i ∨ i + 1 = nLines t) :
    to_xy_cursor t (lineToChar t i + col) = ⟨col, i⟩ := by
  have hrow : charToLine t (lineToChar t i + col) = i :=
    charToLineAux_take_sum (ropeLines t) i col hi hcol
  simp only [to_xy_cursor, hrow, Cursor.mk.injEq, and_true]
  omega

theorem limite_lt (x lim : Nat) (h : 0 < lim) : limite x lim < lim := by
  unfold limite
  split <;> omega

/-- Target cursor offset computed by mto_down / mto_up once the target
row is fixed: start of the row plus the clamped column. -/
def vertTarget (t : Rope) (cursor row1 : Nat) : Nat :=
  lineToChar t row1 + min (lenLine t row1 - 2) (to_xy_cursor t cursor).col

theorem mto_down_none_eq (b : Buffer) (n : Nat) :
    mto_down b n DP.None =
      { b with cursor :=
          vertTarget b.text b.cursor (limite (charToLine b.text b.cursor + n) (nLines b.text)) } := by
  obtain ⟨k, hk⟩ : ∃ k, nLines b.text = k + 1 :=
    ⟨nLines b.text - 1, by have := nLines_pos b.text; omega⟩
  have hrow : charToLine b.text b.cursor ≠ k + 1 := by
    have := charToLine_lt_nLines b.text b.cursor
    omega
  rw [mto_down, hk]
  simp only [hk, hrow, if_false, ite_false, vertTarget]

theorem mto_up_some_eq (b : Buffer) (n : Nat)
    (h : 0 < charToLine b.text b.cursor) :
    mto_up b n DP.None =
      { b with cursor := vertTarget b.text b.cursor (charToLine b.text b.cursor - n) } := by
  obtain ⟨r, hr⟩ : ∃ r, charToLine b.text b.cursor = r + 1 :=
    ⟨charToLine b.text b.cursor - 1, by omega⟩
  rw [mto_up, hr]
  simp only [vertTarget, hr]

theorem min_lenLine_col_ok (t : Rope) (i col : Nat) (hi : i < nLines t) :
    min (lenLine t i - 2) col < lenLine t i ∨ i + 1 = nLines t := by
  by_cases hlast : i + 1 = nLines t
  · right; exact hlast
  · left
    have hpos : 0 < lenLine t i := lenLine_nonlast_pos t i (by omega)
    have := Nat.min_le_left (lenLine t i - 2) col
    omega

/-- C6 (amended): for the `DP::None` qualifier, mto_down places the cursor
in the target row (current row plus count, clamped below the line count)
at column `min(len_line(target) - 2, current column)` — `len_line` counts
the trailing newline, so this is `line length - 1` for newline-terminated
lines but `line length - 2` on the final line — and mto_up does the same
with the target row `current row - count` whenever the current row is
positive.  The sticky-column state is neither consulted (the current
column is always used) nor mutated by either motion, and the text is
unchanged. -/
theorem C6_up_down_column :
    (∀ (b : Buffer) (n : Nat),
      (mto_down b n DP.None).text = b.text ∧
      (mto_down b n DP.None).sticky_col = b.sticky_col ∧
      to_xy_cursor (mto_down b n DP.None).text (mto_down b n DP.None).cursor =
        Cursor.mk
          (min (lenLine b.text (limite (charToLine b.text b.cursor + n) (nLines b.text)) - 2)
            (to_xy_cursor b.text b.cursor).col)
          (limite (charToLine b.text b.cursor + n) (nLines b.text)))
    ∧ (∀ (b : Buffer) (n : Nat) (sc : StickyCol),
      (mto_down { b with sticky_col := sc } n DP.None).cursor = (mto_down b n DP.None).cursor)
    ∧ (∀ (b : Buffer) (n : Nat), 0 < charToLine b.text b.cursor →
      (mto_up b n DP.None).text = b.text ∧
      (mto_up b n DP.None).sticky_col = b.sticky_col ∧
      to_xy_cursor (mto_up b n DP.None).text (mto_up b n DP.None).cursor =
        Cursor.mk
          (min (lenLine b.text (charToLine b.text b.cursor - n) - 2)
            (to_xy_cursor b.text b.cursor).col)
          (charToLine b.text b.cursor - n)) := by
  refine ⟨fun b n => ?_, fun b n sc => ?_, fun b n h => ?_⟩
  · rw [mto_down_none_eq]
    refine ⟨rfl, rfl, ?_⟩
    have hi : limite (charToLine b.text b.cursor + n) (nLines b.text) < nLines b.text :=
      limite_lt _ _ (nLines_pos b.text)
    exact to_xy_cursor_line_col b.text _ _ hi (min_lenLine_col_ok b.text _ _ hi)
  · rw [mto_down_none_eq, mto_down_none_eq]
  · rw [mto_up_some_eq b n h]
    refine ⟨rfl, rfl, ?_⟩
    have hi : charToLine b.text b.cursor - n < nLines b.text := by
      have := charToLine_lt_nLines b.text b.cursor
      omega
    exact to_xy_cursor_line_col b.text _ _ hi (min_lenLine_col_ok b.text _ _ hi)

/-- Concrete buffer for the C6 witness: text "ab\ncd", cursor on row 1. -/
def bC6w : Buffer :=
  { text := ['a', 'b', '\n', 'c', 'd'], cursor := 3, sticky_col := StickyCol.None
    insert_repeat := 0, last_inserts := [], mode := Mode.normal }

/-- Witness for C6: the mto_up clause applied on a concrete two-line
buffer with the cursor on the second row. -/
theorem C6_up_down_column_witness :
    0 < charToLine bC6w.text bC6w.cursor ∧
    ((mto_up bC6w 1 DP.None).text = bC6w.text ∧
     (mto_up bC6w 1 DP.None).sticky_col = bC6w.sticky_col ∧
     to_xy_cursor (mto_up bC6w 1 DP.None).text (mto_up bC6w 1 DP.None).cursor =
       Cursor.mk
         (min (lenLine bC6w.text (charToLine bC6w.text bC6w.cursor - 1) - 2)
           (to_xy_cursor bC6w.text bC6w.cursor).col)
         (charToLine bC6w.text bC6w.cursor - 1)) :=
  ⟨by decide, C6_up_down_column.2.2 bC6w 1 (by decide)⟩

/-- Concrete buffer refuting C6 as stated: text "abc\nghi", cursor 2. -/
def bC6x : Buffer :=
  { text := ['a', 'b', 'c', '\n', 'g', 'h', 'i'], cursor := 2, sticky_col := StickyCol.None
    insert_repeat := 0, last_inserts := [], mode := Mode.normal }

/-- Counterexample to C6 as stated: Down(1) from column 2 of "abc\nghi"
lands at char offset 5 (column 1 of "ghi"), not at offset 6 (column
`min(target_line_length - 1, column) = 2`) as the claim requires. -/
theorem C6_counterexample :
    (mto_down bC6x 1 DP.None).cursor = 5 ∧ (mto_down bC6x 1 DP.None).cursor ≠ 6 := by
  decide

/-- C10 (amended): the caller-facing mutator `set_cursor` stores its
argument verbatim — no clamping — so the `[0, length]` cursor invariant is
the caller's responsibility there; the motion-engine path `mto_cursor`
does clamp (via `limite!`) and always leaves the cursor within the buffer
length. -/
theorem C10_set_cursor_unclamped :
    (∀ (b : Buffer) (n : Nat), (Buffer.set_cursor b n).cursor = n) ∧
    (∀ (b : Buffer) (n : Nat), (mto_cursor b n).cursor ≤ lenChars b.text) := by
  refine ⟨fun b n => rfl, fun b n => ?_⟩
  simp only [mto_cursor, limite]
  split <;> omega

/-- Concrete buffer refuting C10 as stated: length 3, set_cursor 10. -/
def bC10 : Buffer :=
  { text := ['a', 'b', 'c'], cursor := 0, sticky_col := StickyCol.None
    insert_repeat := 0, last_inserts := [], mode := Mode.normal }

/-- Counterexample to C10 as stated: `set_cursor(10)` on a 3-char buffer
leaves the char cursor at 10, outside `[0, length]`. -/
theorem C10_counterexample :
    (Buffer.set_cursor bC10 10).cursor = 10 ∧
    ¬ ((Buffer.set_cursor bC10 10).cursor ≤ lenChars bC10.text) := by
  decide

/-- Scanning loop of mto_bracket from src/buffer.rs, `DP::Right` arm: walk
the enumerated forward character stream; a `yin` with positive nesting
closes a nest, a `yin` at zero nesting with exhausted count is the break
point (break value `i`), a `yin` at zero nesting otherwise spends the
count, a `yan` opens a nest; running off the end breaks 0. -/
def mto_bracket_scan_right (yin yan : Char) : List Char → Nat → Nat → Nat → Nat
  | [], _, _, _ => 0
  | ch :: rest, i, n, m =>
    if ch = yin ∧ 0 < m then mto_bracket_scan_right yin yan rest (i + 1) n (m - 1)
    else if ch = yin ∧ n = 0 then i
    else if ch = yin then mto_bracket_scan_right yin yan rest (i + 1) (n - 1) m
    else if ch = yan then mto_bracket_scan_right yin yan rest (i + 1) n (m + 1)
    else mto_bracket_scan_right yin yan rest (i + 1) n m

/-- Scanning loop of mto_bracket, `DP::Left` arm: identical walk over the
reverse character stream, except that the break value is `i + 1` (the
cursor moves back past the hit). -/
def mto_bracket_scan_left (yin yan : Char) : List Char → Nat → Nat → Nat → Nat
  | [], _, _, _ => 0
  | ch :: rest, i, n, m =>
    if ch = yin ∧ 0 < m then mto_bracket_scan_left yin yan rest (i + 1) n (m - 1)
    else if ch = yin ∧ n = 0 then i + 1
    else if ch = yin then mto_bracket_scan_left yin yan rest (i + 1) (n - 1) m
    else if ch = yan then mto_bracket_scan_left yin yan rest (i + 1) n (m + 1)
    else mto_bracket_scan_left yin yan rest (i + 1) n m

/-- mto_bracket from src/buffer.rs: nesting-aware bracket motion.  The
`DP::Right` arm adds the break value of the forward scan to the cursor;
the `DP::Left` arm subtracts the break value of the reverse scan (other
directions raise `Fatal` in the source and are modelled as no-ops). -/
def mto_bracket (b : Buffer) (n : Nat) (yin yan : Char) (dp : DP) : Buffer :=
  match dp with
  | DP.Left =>
    { b with cursor :=
        b.cursor - mto_bracket_scan_left yin yan ((b.text.take b.cursor).reverse) 0 n 0 }
  | DP.Right =>
    { b with cursor :=
        b.cursor + mto_bracket_scan_right yin yan (b.text.drop b.cursor) 0 n 0 }
  | _ => b

/-- Specification-side reading of the amended C5: the positions of the
unnested `yin` brackets of a character stream, tracking the same nesting
counter the code uses (`yan` opens a nest, `yin` closes one when the
counter is positive, and otherwise is collected as unnested). -/
def unnestedOpens (yin yan : Char) : List Char → Nat → List Nat
  | [], _ => []
  | ch :: rest, m =>
    if ch = yin ∧ 0 < m then (unnestedOpens yin yan rest (m - 1)).map (fun j => j + 1)
    else if ch = yin then 0 :: (unnestedOpens yin yan rest m).map (fun j => j + 1)
    else if ch = yan then (unnestedOpens yin yan rest (m + 1)).map (fun j => j + 1)
    else (unnestedOpens yin yan rest m).map (fun j => j + 1)

theorem mto_bracket_scan_right_eq (yin yan : Char) (l : List Char) :
    ∀ (i n m : Nat),
    mto_bracket_scan_right yin yan l i n m =
      Option.getD (Option.map (fun j => i + j) (unnestedOpens yin yan l m)[n]?) 0 := by
  induction l with
  | nil => intro i n m; simp [mto_bracket_scan_right, unnestedOpens]
  | cons ch rest ih =>
    intro i n m
    rw [mto_bracket_scan_right, unnestedOpens]
    by_cases h1 : ch = yin ∧ 0 < m
    · rw [if_pos h1, if_pos h1, ih]
      cases hj : (unnestedOpens yin yan rest (m - 1))[n]? with
      | none => simp [List.getElem?_map, hj]
      | some j =>
        simp only [List.getElem?_map, hj, Option.map_some', Option.getD_some]
        omega
    · rw [if_neg h1, if_neg h1]
      by_cases h2 : ch = yin
      · by_cases h3 : n = 0
        · rw [if_pos (by exact ⟨h2, h3⟩), if_pos h2]
          subst h3
          simp
        · rw [if_neg (by simp [h2, h3]), if_pos h2, if_pos h2, ih]
          obtain ⟨n', rfl⟩ : ∃ n', n = n' + 1 := ⟨n - 1, by omega⟩
          cases hj : (unnestedOpens yin yan rest m)[n']? with
          | none => simp [Nat.add_sub_cancel, List.getElem?_map, hj]
          | some j =>
            simp only [Nat.add_sub_cancel, List.getElem?_cons_succ, List.getElem?_map, hj,
              Option.map_some', Option.getD_some]
            omega
      · rw [if_neg (by simp [h2]), if_neg h2, if_neg h2]
        by_cases h4 : ch = yan
        · rw [if_pos h4, if_pos h4, ih]
          cases hj : (unnestedOpens yin yan rest (m + 1))[n]? with
          | none => simp [List.getElem?_map, hj]
          | some j =>
            simp only [List.getElem?_map, hj, Option.map_some', Option.getD_some]
            omega
        · rw [if_neg h4, if_neg h4, ih]
          cases hj : (unnestedOpens yin yan rest m)[n]? with
          | none => simp [List.getElem?_map, hj]
          | some j =>
            simp only [List.getElem?_map, hj, Option.map_some', Option.getD_some]
            omega

/-- Concrete buffer for the C5 scenario: text "(a(b)c)", cursor 1. -/
def bC5 : Buffer :=
  { text := ['(', 'a', '(', 'b', ')', 'c', ')'], cursor := 1, sticky_col := StickyCol.None
    insert_repeat := 0, last_inserts := [], mode := Mode.normal }

/-- C5 (amended): walking right, a `close` bracket increments the nesting
counter `m` and an `open` bracket decrements `m` when `m` is positive,
else spends `n`; the cursor stops on the (n+1)-th unnested `open` in scan
order, and stays put when no such bracket exists.  In particular, for text
"(a(b)c)" with cursor 1, `Bracket(1, open, close, Right)` leaves the
cursor at 1 — there is no second unnested open parenthesis to the right —
and the matching-parenthesis jump to offset 6 is what
`Bracket(0, close, open, Right)` computes. -/
theorem C5_bracket_motion :
    (∀ (yin yan : Char) (l : List Char) (n : Nat),
      mto_bracket_scan_right yin yan l 0 n 0 =
        Option.getD (unnestedOpens yin yan l 0)[n]? 0)
    ∧ (mto_bracket bC5 1 '(' ')' DP.Right).cursor = 1
    ∧ (mto_bracket bC5 0 ')' '(' DP.Right).cursor = 6 := by
  refine ⟨fun yin yan l n => ?_, by decide, by decide⟩
  rw [mto_bracket_scan_right_eq]
  cases hj : (unnestedOpens yin yan l 0)[n]? <;> simp [hj]

/-- Counterexample to C5 as stated: in text "(a(b)c)" with cursor 1,
`Bracket(1, open=40, close=41, Right)` does not place the cursor at 6; it
leaves it at 1. -/
theorem C5_counterexample :
    (mto_bracket bC5 1 '(' ')' DP.Right).cursor ≠ 6 ∧
    (mto_bracket bC5 1 '(' ')' DP.Right).cursor = 1 := by
  decide

/-- Line slice holding the cursor (ropey `line(char_to_line(cursor))`). -/
def lineOf (t : Rope) (cursor : Nat) : Rope :=
  (ropeLines t).getD (charToLine t cursor) []

/-- mto_char from src/buffer.rs.  The source builds an `IterChar` over the
line slice holding the cursor with `reverse: dp == DP::Right`, so for
`DP::Right` the stream is the reverse iterator (the chars before index
`cursor` of the slice, nearest first) and for `DP::Left` the forward one;
it then takes the first `n - 1` hit indexes and uses the first of those
(`take(n.saturating_sub(1))` then `next()`).  `pos` is 'f' for CharF and
't' for CharT, as in the source.  The source indexes the line slice with
the absolute char cursor (out of bounds for lines after the first; the
claims exercise line 0, where slice and buffer offsets coincide). -/
def mto_char (t : Rope) (cursor n : Nat) (ch : Char) (dp : DP) (pos : Char) : Nat :=
  let rslice := lineOf t cursor
  let stream := if dp = DP.Right then (rslice.take cursor).reverse else rslice.drop cursor
  let hits :=
    ((stream.enum.filterMap fun p => if p.2 = ch then some p.1 else none).take (n - 1))
  match hits.head?, dp, pos with
  | some i, DP.Right, 'f' => cursor + i
  | some i, DP.Right, 't' => cursor + i - 1
  | some i, DP.Left, 'f' => cursor - (i + 1)
  | some i, DP.Left, 't' => cursor - i
  | _, _, _ => cursor

/-- C1 helper and C4 evidence share this first character read: the head of
a fresh Change::iter(dp) stream, i.e. `self.iter(dp).next()`. -/
def iterNext (t : Rope) (cursor : Nat) (dp : DP) : Option Char :=
  (iterChars t cursor dp).head?

/-- Change::skip_alphanumeric from src/buffer.rs.  The source loop creates
a fresh iterator `self.iter(dp)` on every pass while `self.cursor` stays
unchanged, so every pass re-reads the same character; when that character
is alphanumeric the loop never breaks.  The embedding makes the iteration
count explicit: `none` means the fuel ran out — and because the inspected
state never changes, no fuel suffices when the read is alphanumeric, i.e.
the source diverges.  On break the cursor moves by the accumulated count
(the `if_else!` macro of the missing src/util.rs is if-then-else). -/
def skip_alphanumeric (t : Rope) (cursor : Nat) (dp : DP) : Nat → Nat → Option (Nat × Nat)
  | 0, _ => none
  | fuel + 1, n =>
    match iterNext t cursor dp with
    | some ch =>
      if ch.isAlphanum then skip_alphanumeric t cursor dp fuel (n + 1)
      else some (if dp = DP.Right then cursor + n else cursor - n, n)
    | none => some (if dp = DP.Right then cursor + n else cursor - n, n)

/-- mto_words from src/buffer.rs, arm `Mto::Word(n, DP::Right, DP::Start)`
(the motion named by the claim): each count iteration skips whitespace
rightward; when no whitespace was skipped it also skips one alphanumeric
run and then whitespace again.  The `End` qualifier and the `Left`
direction additionally use the Nobound char motions, whose cross-line walk
lives in the missing src/text.rs; no claim exercises them.  The fuel
bounds the skip_alphanumeric loop; `none` = divergence. -/
def mto_words_right_start (t : Rope) (fuel : Nat) : Nat → Nat → Option Nat
  | 0, cursor => some cursor
  | count + 1, cursor =>
    let c1 := (skip_whitespace t cursor DP.Right).1
    let k := (skip_whitespace t cursor DP.Right).2
    if k = 0 then
      match skip_alphanumeric t c1 DP.Right fuel 0 with
      | none => none
      | some (c2, _) =>
        mto_words_right_start t fuel count (skip_whitespace t c2 DP.Right).1
    else mto_words_right_start t fuel count c1

theorem skip_alphanumeric_none (t : Rope) (cursor : Nat) (dp : DP) (ch : Char)
    (h : iterNext t cursor dp = some ch) (ha : ch.isAlphanum = true) :
    ∀ (fuel n : Nat), skip_alphanumeric t cursor dp fuel n = none := by
  intro fuel
  induction fuel with
  | zero => intro n; rfl
  | succ f ihf =>
    intro n
    rw [skip_alphanumeric, h]
    simp only [ha, if_true]
    exact ihf (n + 1)

/-- Concrete text of the spec's word-motion scenario: "abc def\nghi". -/
def wordsText : Rope := ['a', 'b', 'c', ' ', 'd', 'e', 'f', '\n', 'g', 'h', 'i']

/-- C1 (code bug): from cursor 0 of "abc def\nghi" — the spec's own §8
scenario — `Word(1, Right, Start)` never completes: the character at the
cursor is alphanumeric, so the skip_alphanumeric loop re-reads it forever;
no iteration bound makes the motion finish, refuting termination. -/
theorem C1_word_motion_diverges :
    ∀ fuel : Nat, mto_words_right_start wordsText fuel 1 0 = none := by
  intro fuel
  have hsa : ∀ n, skip_alphanumeric wordsText 0 DP.Right fuel n = none := fun n =>
    skip_alphanumeric_none wordsText 0 DP.Right 'a' rfl (by decide) fuel n
  rw [mto_words_right_start]
  have hsw : skip_whitespace wordsText 0 DP.Right = (0, 0) := rfl
  rw [hsw]
  simp only [if_pos rfl]
  rw [hsa 0]
  simp

/-- Concrete evidence for C4 (code bug): in text "ab" with the cursor at
0, `CharF(1, Some 'b', Right)` leaves the cursor at 0 even though 'b'
occurs at offset 1: the source iterates in the reversed direction
(`reverse: dp == DP::Right`) and keeps only the first of `n - 1 = 0`
candidate hits, so a count of 1 can never move. -/
theorem C4_charf_eval :
    mto_char ['a', 'b'] 0 1 'b' DP.Right 'f' = 0 ∧
    mto_char ['a', 'b'] 0 1 'b' DP.Right 'f' ≠ 1 ∧
    ['a', 'b'][1]? = some 'b' := by
  decide


/-- Change::insert_char from src/buffer.rs (rope level): insert at the
cursor and advance the cursor by one. -/
def insert_char (t : Rope) (cursor : Nat) (ch : Char) : Rope × Nat :=
  (t.take cursor ++ ch :: t.drop cursor, cursor + 1)

/-- Change::backspace from src/buffer.rs (rope level): when the cursor is
positive, remove the `n` chars before it (saturating); the source leaves
`self.cursor` where it was. -/
def backspace (t : Rope) (cursor n : Nat) : Rope × Nat :=
  if 0 < cursor then (t.take (cursor - n) ++ t.drop cursor, cursor)
  else (t, cursor)

/-- Rust `std::ops::Bound`, the argument type of Change::remove_at. -/
inductive RBound
  | included (n : Nat)
  | excluded (n : Nat)
  | unbounded
deriving DecidableEq

/-- Change::remove_at from src/buffer.rs: resolve both bounds against the
rope length exactly as the source does and remove the span when it is
non-empty. -/
def remove_at (t : Rope) (a z : RBound) : Rope :=
  let n := t.length
  let lo :=
    match a with
    | RBound.included x => min x (n - 1)
    | RBound.excluded x => min (x + 1) n
    | RBound.unbounded => 0
  let hi :=
    match z with
    | RBound.included x => min (x + 1) n
    | RBound.excluded x => min x n
    | RBound.unbounded => n
  if lo < hi then t.take lo ++ t.drop hi else t

/-- Buffer::cmd_insert_char from src/buffer.rs, text/cursor effect (the
preceding `Change::to_next_change` step touches only the history arena,
modelled separately below; it copies rope and cursor unchanged). -/
def cmd_insert_char (b : Buffer) (ch : Char) : Buffer :=
  { b with text := (insert_char b.text b.cursor ch).1
           cursor := (insert_char b.text b.cursor ch).2 }

/-- Buffer::cmd_backspace from src/buffer.rs, text/cursor effect. -/
def cmd_backspace (b : Buffer) (n : Nat) : Buffer :=
  { b with text := (backspace b.text b.cursor n).1 }

/-- Buffer::cmd_remove_at from src/buffer.rs, text effect. -/
def cmd_remove_at (b : Buffer) (a z : RBound) : Buffer :=
  { b with text := remove_at b.text a z }

/-- Validity test of Buffer::repeat: only character-insert, backspace,
delete, enter and tab events are replayable. -/
def replayable : IEvent → Bool
  | IEvent.backspace | IEvent.delete => true
  | IEvent.char _ | IEvent.enter | IEvent.tab => true
  | _ => false

/-- Edit arms of Buffer::ex_i_event (replay path): the five replayable
event kinds mutate the buffer, everything else is left alone.  Since the
validity check guarantees a replayed log contains only these five kinds,
Buffer::repeat below can use this function, breaking the source's
ex_i_event/repeat recursion without changing behaviour. -/
def ex_i_edit (b : Buffer) (e : IEvent) : Buffer :=
  match e with
  | IEvent.char ch => cmd_insert_char b ch
  | IEvent.backspace => cmd_backspace b 1
  | IEvent.enter => cmd_insert_char b NL
  | IEvent.tab => cmd_insert_char b '\t'
  | IEvent.delete => cmd_remove_at b (RBound.included b.cursor) (RBound.included b.cursor)
  | _ => b

/-- Buffer::repeat from src/buffer.rs: drain the insert log; when every
recorded event is replayable keep the drained log, else use an empty one;
replay that log `insert_repeat` times; finally reset `insert_repeat` to 0
and store the kept log back into `last_inserts`. -/
def Buffer.repeat (b : Buffer) : Buffer :=
  let evnts := b.last_inserts
  let kept := if evnts.all replayable then evnts else []
  let b0 := { b with last_inserts := ([] : List IEvent) }
  let b1 := (List.range b.insert_repeat).foldl (fun acc _ => kept.foldl ex_i_edit acc) b0
  { b1 with insert_repeat := 0, last_inserts := kept }

/-- Buffer::ex_i_event from src/buffer.rs, the arms the claims exercise:
Esc replays the pending repeats, moves one char left bounded to the line
and switches to Normal mode; the five edit events mutate the buffer; any
other event passes through unchanged (the `Mt` motion arms are neither
replayable nor exercised by the claims). -/
def ex_i_event (b : Buffer) (e : IEvent) : Buffer × IEvent :=
  match e with
  | IEvent.esc =>
    let b1 := Buffer.repeat b
    let b2 := mto_left b1 1 DP.LineBound
    ({ b2 with mode := Mode.normal }, IEvent.noop)
  | IEvent.char ch => (cmd_insert_char b ch, IEvent.noop)
  | IEvent.backspace => (cmd_backspace b 1, IEvent.noop)
  | IEvent.enter => (cmd_insert_char b NL, IEvent.noop)
  | IEvent.tab => (cmd_insert_char b '\t', IEvent.noop)
  | IEvent.delete =>
    (cmd_remove_at b (RBound.included b.cursor) (RBound.included b.cursor), IEvent.noop)
  | e => (b, e)

/-- Buffer::handle_i_event from src/buffer.rs: Noop passes through; every
other event is first pushed onto the insert log, then executed. -/
def handle_i_event (b : Buffer) (e : IEvent) : Buffer × IEvent :=
  match e with
  | IEvent.noop => (b, IEvent.noop)
  | e => ex_i_event { b with last_inserts := b.last_inserts ++ [e] } e

/-- Insert session of the C3 scenario: empty buffer in Insert mode with
`insert_repeat = 2` (a pending count-3 insert). -/
def bC3 : Buffer :=
  { text := [], cursor := 0, sticky_col := StickyCol.None
    insert_repeat := 2, last_inserts := [], mode := Mode.insert }

/-- C3 (code bug): typing 'X' then Esc in the count-3 insert session
leaves only "X", not "XXX": handle_i_event records the Esc event itself
into the insert log before dispatching it, so the validity check inside
Buffer::repeat fails and nothing is replayed (the log at that point is
[Char, Esc]).  The final conjunct shows the replay machinery itself is
sound: Buffer::repeat applied to the clean log [Char] with
insert_repeat = 2 does produce "XXX" — only the recorded Esc defeats it.
The Esc handling otherwise matches the claim: cursor moved one left
bounded to the line, Normal mode, insert_repeat reset. -/
theorem C3_insert_repeat_dead_eval :
    (handle_i_event (handle_i_event bC3 (IEvent.char 'X')).1 IEvent.esc).1.text = ['X'] ∧
    (handle_i_event (handle_i_event bC3 (IEvent.char 'X')).1 IEvent.esc).1.text
      ≠ ['X', 'X', 'X'] ∧
    (handle_i_event (handle_i_event bC3 (IEvent.char 'X')).1 IEvent.esc).1.mode
      = Mode.normal ∧
    (handle_i_event (handle_i_event bC3 (IEvent.char 'X')).1 IEvent.esc).1.cursor = 0 ∧
    (handle_i_event (handle_i_event bC3 (IEvent.char 'X')).1 IEvent.esc).1.insert_repeat
      = 0 ∧
    (Buffer.repeat
      { bC3 with text := ['X'], cursor := 1, last_inserts := [IEvent.char 'X'] }).text
      = ['X', 'X', 'X'] := by
  decide


/-- Model of the external regex crate's `find_iter`, restricted to the
literal patterns the claims use: leftmost non-overlapping occurrences as
half-open `(start, end)` ranges (byte = char offsets for the ASCII inputs
below).  `pos` is the absolute offset of the head of `text`; the fuel is
structural-recursion bookkeeping — every step consumes at least one
character, so `text.length` fuel (supplied by `find_iter`) always
suffices. -/
def findIterLit (patt : List Char) : Nat → List Char → Nat → List (Nat × Nat)
  | 0, _, _ => []
  | fuel + 1, text, pos =>
    match text with
    | [] => []
    | c :: rest =>
      if patt ≠ [] ∧ patt.isPrefixOf (c :: rest) then
        (pos, pos + patt.length) ::
          findIterLit patt fuel ((c :: rest).drop patt.length) (pos + patt.length)
      else findIterLit patt fuel rest (pos + 1)

/-- All matches of a literal pattern in a text, from offset 0. -/
def find_iter (patt text : List Char) : List (Nat × Nat) :=
  findIterLit patt text.length text 0

/-- Model of the compiled `Search` struct of src/buffer.rs: the compiled
regex is represented by its observable behaviour, the `find_iter` match
list it produces on a text. -/
structure Search where
  patt : Rope → List (Nat × Nat)

/-- Search::find from src/buffer.rs: recursive binary search over the
sorted match list, halving at `m = len / 2` — descending right (and
re-adding `m`) when the midpoint match ends before the offset or the
offset is at or past its start, descending left otherwise.  The halving
recursion is not structural, so the recursion depth is made explicit as
fuel; `rs.length` (supplied by `Search.find`) always suffices because
each call strictly shrinks the list. -/
def Search.findAux (off : Nat) : Nat → List (Nat × Nat) → Option Nat
  | 0, _ => Option.none
  | fuel + 1, rs =>
    match rs.length with
    | 0 => Option.none
    | 1 => some 0
    | _ + 2 =>
      let m := rs.length / 2
      let se := rs.getD m (0, 0)
      if se.2 < off ∨ off ≥ se.1 then
        (Search.findAux off fuel (rs.drop m)).map (fun i => m + i)
      else Search.findAux off fuel (rs.take m)

/-- Search::find with enough fuel for its own list. -/
def Search.find (off : Nat) (rs : List (Nat × Nat)) : Option Nat :=
  Search.findAux off rs.length rs

/-- Search::find_fwd from src/buffer.rs: compute every match, then rotate
the list to begin at the index chosen by Search::find (no rotation when
the list is empty). -/
def Search.find_fwd (s : Search) (text : Rope) (byte_off : Nat) : List (Nat × Nat) :=
  let ms := s.patt text
  match Search.find byte_off ms with
  | some i => ms.drop i ++ ms.take i
  | Option.none => ms

/-- Search::find_rev from src/buffer.rs: the reversed forward rotation. -/
def Search.find_rev (s : Search) (text : Rope) (byte_off : Nat) : List (Nat × Nat) :=
  (Search.find_fwd s text byte_off).reverse

/-- The compiled form of a literal pattern. -/
def litSearch (patt : List Char) : Search :=
  { patt := fun text => find_iter patt text }

/-- Pattern "foo". -/
def fooPatt : Rope := ['f', 'o', 'o']

/-- Text "foo bar foo". -/
def fooText : Rope := ['f', 'o', 'o', ' ', 'b', 'a', 'r', ' ', 'f', 'o', 'o']

/-- C2 (code bug): for text "foo bar foo", pattern "foo" and query byte
offset 4, find_iter yields [(0,3), (8,11)] in order, but Search::find
selects index 0 — its descent condition keeps the last match starting at
or before the offset — so the rotated list still begins with (0, 3): the
first occurrence reported is the match at byte 0, not the nearest match
ahead at byte 8 that the claim requires. -/
theorem C2_find_fwd_first_match :
    Search.find_fwd (litSearch fooPatt) fooText 4 = [(0, 3), (8, 11)] ∧
    (Search.find_fwd (litSearch fooPatt) fooText 4).head? ≠ some (8, 11) := by
  decide

/-- Error type of the core, from `enum Error` in src/lib.rs (the variants
the buffer claims exercise). -/
inductive Err
  | badPattern (patt : String)
  | fatal (msg : String)
deriving DecidableEq

/-- TryFrom<&str> for Search from src/buffer.rs: compile the pattern with
the external regex crate — represented by the `compile` parameter, where
`none` means the pattern does not compile — failing with `BadPattern`. -/
def search_try_from (compile : String → Option Search) (patt : String) :
    Except Err Search :=
  match compile patt with
  | some s => Except.ok s
  | Option.none => Except.error (Err.badPattern patt)

/-- mto_pattern from src/buffer.rs: the `?` on the pattern conversion
propagates BadPattern before any buffer mutation; otherwise search
forward or backward from the cursor's byte offset (byte and char offsets
are identified in this model) and move the cursor to the n-th result,
leaving it unchanged when the list runs out. -/
def mto_pattern (compile : String → Option Search) (b : Buffer) (n : Nat)
    (patt : String) (dp : DP) : Except Err Buffer :=
  match search_try_from compile patt with
  | Except.error e => Except.error e
  | Except.ok search =>
    let byte_off := b.cursor
    let ms :=
      match dp with
      | DP.Left => Search.find_rev search b.text byte_off
      | _ => Search.find_fwd search b.text byte_off
    let cursor :=
      match (ms.drop (n - 1)).head? with
      | some se => se.1
      | Option.none => b.cursor
    Except.ok { b with cursor := cursor }

/-- Caller's view of `mto_pattern` on a `&mut Buffer`: when the call
returns an error the buffer is exactly as it was. -/
def run_mto_pattern (compile : String → Option Search) (b : Buffer) (n : Nat)
    (patt : String) (dp : DP) : Buffer × Except Err Unit :=
  match mto_pattern compile b n patt dp with
  | Except.ok b1 => (b1, Except.ok ())
  | Except.error e => (b, Except.error e)

/-- C9: for every pattern string that fails to compile, the pattern
motion surfaces BadPattern to the caller and the buffer state — text,
cursor, mode, sticky column, insert log — is unchanged. -/
theorem C9_bad_pattern_state_unchanged :
    ∀ (compile : String → Option Search) (b : Buffer) (n : Nat) (patt : String) (dp : DP),
      compile patt = Option.none →
      run_mto_pattern compile b n patt dp = (b, Except.error (Err.badPattern patt)) := by
  intro compile b n patt dp h
  simp [run_mto_pattern, mto_pattern, search_try_from, h]

/-- Compiler that rejects every pattern (concrete stand-in for a regex
compiler facing a malformed pattern such as "("). -/
def noCompile : String → Option Search := fun _ => Option.none

/-- Buffer used by the C9 witness. -/
def bC9w : Buffer :=
  { text := ['x'], cursor := 0, sticky_col := StickyCol.None
    insert_repeat := 0, last_inserts := [], mode := Mode.normal }

/-- Witness for C9 at a concrete failing pattern. -/
theorem C9_bad_pattern_witness :
    noCompile "(" = Option.none ∧
    run_mto_pattern noCompile bC9w 1 "(" DP.Right =
      (bC9w, Except.error (Err.badPattern "(")) :=
  ⟨rfl, C9_bad_pattern_state_unchanged noCompile bC9w 1 "(" DP.Right rfl⟩


/-- History node, from `struct Change` in src/buffer.rs.  Per the spec's
design note (§9), the Rc/RefCell/Weak graph is realised as an arena of
nodes indexed by `Nat`: `children` holds owning edges, `parent` is a
plain back-index carrying no ownership (the weak reference). -/
structure Change where
  rope : Rope
  parent : Option Nat
  children : List Nat
  cursor : Nat
deriving DecidableEq

/-- Default for Change: empty rope, no links, cursor 0 (as in the
source's `Default` impl). -/
instance : Inhabited Change := ⟨⟨[], Option.none, [], 0⟩⟩

/-- The node arena: a Change's id is its index. -/
abbrev Arena := List Change

/-- Change::start from src/buffer.rs: the root node — no parent, no
children, cursor 0 — and its id. -/
def Change.start (rope : Rope) : Arena × Nat :=
  ([{ rope := rope, parent := Option.none, children := [], cursor := 0 }], 0)

/-- Change::to_next_change from src/buffer.rs: clone the previous head's
rope and cursor into a fresh node with no parent and no children, push
the old head into the new node's children (ownership transfer), point the
old head's weak parent link at the new node, and return the new head's
id. -/
def to_next_change (arena : Arena) (prev : Nat) : Arena × Nat :=
  let prev_change := arena.getD prev default
  let nextId := arena.length
  let next : Change :=
    { rope := prev_change.rope, parent := Option.none, children := [prev]
      cursor := prev_change.cursor }
  (arena.set prev { prev_change with parent := some nextId } ++ [next], nextId)

/-- Change::insert_char at node level. -/
def Change.insert_char (c : Change) (ch : Char) : Change :=
  { c with rope := (Kavi.insert_char c.rope c.cursor ch).1, cursor := c.cursor + 1 }

/-- Change::insert at node level (insert text at an absolute index). -/
def Change.insert (c : Change) (char_idx : Nat) (s : Rope) : Change :=
  { c with rope := c.rope.take char_idx ++ s ++ c.rope.drop char_idx }

/-- Change::backspace at node level. -/
def Change.backspace (c : Change) (n : Nat) : Change :=
  { c with rope := (Kavi.backspace c.rope c.cursor n).1 }

/-- Change::remove_at at node level. -/
def Change.remove_at (c : Change) (a z : RBound) : Change :=
  { c with rope := Kavi.remove_at c.rope a z }

/-- Apply an in-place mutation to one arena node. -/
def arena_modify (a : Arena) (i : Nat) (f : Change → Change) : Arena :=
  a.set i (f (a.getD i default))

/-- The four mutating commands of src/buffer.rs (cmd_insert_char,
cmd_insert, cmd_backspace, cmd_remove_at), as data. -/
inductive EditOp
  | insertChar (ch : Char)
  | insertStr (char_idx : Nat) (s : Rope)
  | backspaceOp (n : Nat)
  | removeAtOp (a z : RBound)
deriving DecidableEq

/-- The edit each command applies to the new head. -/
def applyEdit (op : EditOp) (c : Change) : Change :=
  match op with
  | EditOp.insertChar ch => c.insert_char ch
  | EditOp.insertStr i s => c.insert i s
  | EditOp.backspaceOp n => c.backspace n
  | EditOp.removeAtOp a z => c.remove_at a z

/-- Buffer history state: the arena and the current head id (the shared
`Rc<RefCell<Change>>` of NormalBuffer/InsertBuffer). -/
structure HBuf where
  arena : Arena
  head : Nat
deriving DecidableEq

/-- Construction from a byte source (Buffer::from_reader →
NormalBuffer::new → Change::start), history part. -/
def hbuf_start (r : Rope) : HBuf :=
  ⟨(Change.start r).1, (Change.start r).2⟩

/-- A mutating command (any of cmd_insert_char / cmd_insert /
cmd_backspace / cmd_remove_at in src/buffer.rs): replace the head via
`Change::to_next_change`, then mutate the new head in place. -/
def cmd_apply (s : HBuf) (op : EditOp) : HBuf :=
  let an := to_next_change s.arena s.head
  ⟨arena_modify an.1 an.2 (applyEdit op), an.2⟩

/-- Buffer::is_modified from src/buffer.rs: the head has a parent or has
owned children. -/
def is_modified (s : HBuf) : Bool :=
  let change := s.arena.getD s.head default
  change.parent.isSome || !change.children.isEmpty

theorem applyEdit_parent (op : EditOp) (c : Change) :
    (applyEdit op c).parent = c.parent := by
  cases op <;> rfl

theorem applyEdit_children (op : EditOp) (c : Change) :
    (applyEdit op c).children = c.children := by
  cases op <;> rfl


theorem getD_set_ne {α : Type} [Inhabited α] (l : List α) (i j : Nat) (y : α)
    (h : i ≠ j) : (l.set i y).getD j default = l.getD j default := by
  rw [List.getD_eq_getElem?_getD, List.getElem?_set_ne h, ← List.getD_eq_getElem?_getD]

theorem getD_set_self {α : Type} [Inhabited α] (l : List α) (i : Nat) (y : α)
    (h : i < l.length) : (l.set i y).getD i default = y := by
  rw [List.getD_eq_getElem?_getD, List.getElem?_set_eq_of_lt y h]
  rfl

theorem set_concat_getD_last {α : Type} [Inhabited α] (l : List α) (i : Nat) (x y : α) :
    ((l.set i x) ++ [y]).getD l.length default = y := by
  rw [List.getD_eq_getElem?_getD]
  have h := List.getElem?_concat_length (l.set i x) y
  rw [List.length_set] at h
  rw [h]
  rfl

theorem set_concat_getD_set {α : Type} [Inhabited α] (l : List α) (i : Nat) (x y : α)
    (h : i < l.length) : ((l.set i x) ++ [y]).getD i default = x := by
  rw [List.getD_eq_getElem?_getD, List.getElem?_append]
  rw [List.length_set, if_pos h, List.getElem?_set_eq_of_lt x h]
  rfl

/-- C7: advance (Change::to_next_change) creates a new node whose rope and
cursor equal the old head's, makes the old head the new node's owned
child, turns the old head's parent link into a (non-owning) reference to
the new node, keeps the old head's rope byte-for-byte intact — and the
old head's rope is still intact after the new head is mutated by any of
the editing commands. -/
theorem C7_advance_preserves_old_head :
    ∀ (arena : Arena) (prev : Nat) (op : EditOp), prev < arena.length →
      ((to_next_change arena prev).1.getD (to_next_change arena prev).2 default).rope
        = (arena.getD prev default).rope ∧
      ((to_next_change arena prev).1.getD (to_next_change arena prev).2 default).cursor
        = (arena.getD prev default).cursor ∧
      ((to_next_change arena prev).1.getD (to_next_change arena prev).2 default).children
        = [prev] ∧
      ((to_next_change arena prev).1.getD prev default).parent
        = some (to_next_change arena prev).2 ∧
      ((to_next_change arena prev).1.getD prev default).rope
        = (arena.getD prev default).rope ∧
      ((arena_modify (to_next_change arena prev).1 (to_next_change arena prev).2
          (applyEdit op)).getD prev default).rope
        = (arena.getD prev default).rope := by
  intro arena prev op h
  simp only [to_next_change, arena_modify]
  rw [set_concat_getD_last]
  rw [set_concat_getD_set _ _ _ _ h]
  rw [getD_set_ne _ _ _ _ (by omega)]
  rw [set_concat_getD_set _ _ _ _ h]
  exact ⟨rfl, rfl, rfl, rfl, rfl, rfl⟩

/-- Arena used by the C7 witness: a single root node with text "a". -/
def arenaC7 : Arena := [{ rope := ['a'], parent := Option.none, children := [], cursor := 0 }]

/-- Witness for C7: after advancing the concrete one-node arena and
mutating the new head with an insert, the old head's rope is unchanged. -/
theorem C7_advance_witness :
    (0 : Nat) < arenaC7.length ∧
    ((arena_modify (to_next_change arenaC7 0).1 (to_next_change arenaC7 0).2
        (applyEdit (EditOp.insertChar 'b'))).getD 0 default).rope
      = (arenaC7.getD 0 default).rope :=
  ⟨by decide, (C7_advance_preserves_old_head arenaC7 0 (EditOp.insertChar 'b')
    (by decide)).2.2.2.2.2⟩

theorem cmd_apply_head_fields (s : HBuf) (op : EditOp) :
    ((cmd_apply s op).arena.getD (cmd_apply s op).head default).parent = Option.none ∧
    ((cmd_apply s op).arena.getD (cmd_apply s op).head default).children = [s.head] := by
  simp only [cmd_apply, arena_modify, to_next_change]
  rw [set_concat_getD_last]
  rw [getD_set_self _ _ _ (by simp [List.length_set])]
  rw [applyEdit_parent, applyEdit_children]
  exact ⟨rfl, rfl⟩

theorem foldl_cmd_apply_modified (ops : List EditOp) :
    ∀ (s : HBuf), ops ≠ [] →
      ((ops.foldl cmd_apply s).arena.getD (ops.foldl cmd_apply s).head default).parent
        = Option.none ∧
      ((ops.foldl cmd_apply s).arena.getD (ops.foldl cmd_apply s).head default).children
        ≠ [] := by
  induction ops with
  | nil => intro s h; exact absurd rfl h
  | cons op rest ih =>
    intro s _
    cases hrest : rest with
    | nil =>
      subst hrest
      simp only [List.foldl_cons, List.foldl_nil]
      obtain ⟨hp, hc⟩ := cmd_apply_head_fields s op
      exact ⟨hp, by rw [hc]; simp⟩
    | cons op2 rest2 =>
      simp only [List.foldl_cons]
      have hr : rest ≠ [] := by rw [hrest]; simp
      have := ih (cmd_apply s op) hr
      simpa [hrest] using this

/-- C8: `is_modified` is the emptiness test of the head's owned-children
list — false right after construction from a byte source, true after any
non-empty sequence of mutating commands (so it becomes and stays true
after a single one). -/
theorem bnot_isEmpty_iff {α : Type} (l : List α) : (!l.isEmpty) = true ↔ l ≠ [] := by
  cases l <;> simp

theorem C8_is_modified_iff :
    ∀ (r : Rope) (ops : List EditOp),
      (is_modified (ops.foldl cmd_apply (hbuf_start r)) = true ↔
        ((ops.foldl cmd_apply (hbuf_start r)).arena.getD
            (ops.foldl cmd_apply (hbuf_start r)).head default).children ≠ []) ∧
      is_modified (hbuf_start r) = false ∧
      (ops ≠ [] → is_modified (ops.foldl cmd_apply (hbuf_start r)) = true) := by
  intro r ops
  have hstart : is_modified (hbuf_start r) = false := by
    simp [is_modified, hbuf_start, Change.start]
  refine ⟨?_, hstart, fun hne => ?_⟩
  · cases hops : ops with
    | nil =>
      simp only [List.foldl_nil]
      rw [hstart]
      simp [hbuf_start, Change.start]
    | cons op rest =>
      obtain ⟨hp, hc⟩ := foldl_cmd_apply_modified (op :: rest) (hbuf_start r) (by simp)
      simp only [is_modified, hp, Option.isSome_none, Bool.false_or, bnot_isEmpty_iff]
  · obtain ⟨hp, hc⟩ := foldl_cmd_apply_modified ops (hbuf_start r) hne
    simp only [is_modified, hp, Option.isSome_none, Bool.false_or, bnot_isEmpty_iff]
    exact hc

/-- Witness for C8 at one concrete mutating command on buffer "a". -/
theorem C8_is_modified_witness :
    ([EditOp.insertChar 'b'] : List EditOp) ≠ [] ∧
    is_modified ([EditOp.insertChar 'b'].foldl cmd_apply (hbuf_start ['a'])) = true :=
  ⟨by decide, (C8_is_modified_iff ['a'] [EditOp.insertChar 'b']).2.2 (by decide)⟩

end Kavi
